import Mathlib

/-!
Shallow embedding of the validation engine of the `cyclonedx-bom` crate
(files `src/models/hash.rs` and `src/models/formulation/mod.rs`), together
with the parts of the `validation` module and of the surrounding document
model that those files use.  The `validation` module itself is not among
the given sources, so its data model and the behaviour of its
`ValidationContext` operations are modelled from the design specification
(sections 3, 4.1 and 4.2); every such definition is marked
`Modelled from the spec:` in its doc comment.  All other definitions are
direct translations of the Rust source.
-/

namespace CycloneDX

/-- Modelled from the spec: one segment of a path-tagged error location,
either a field name or a zero-based list index. -/
inductive PathSeg where
  | field (name : String)
  | index (i : Nat)
deriving DecidableEq

/-- Modelled from the spec: a validation failure, an ordered path of
named/indexed segments plus a human-readable message. -/
structure ValidationError where
  path : List PathSeg
  message : String
deriving DecidableEq

/-- Modelled from the spec: `ValidationError::new(message)` produces an
error with the given message and an empty path; path segments are added
by the enclosing `ValidationContext` operations. -/
def ValidationError.new (message : String) : ValidationError :=
  ⟨[], message⟩

/-- Modelled from the spec: the outcome of validating an entity, either
`Passed` or `Failed` with an ordered sequence of errors (never an empty
one: `Failed` is only built from a nonempty accumulator). -/
inductive ValidationResult where
  | Passed
  | Failed (errors : List ValidationError)
deriving DecidableEq

/-- Modelled from the spec: the ordered error list carried by a result
(`Passed` carries none). -/
def resultErrors : ValidationResult → List ValidationError
  | .Passed => []
  | .Failed es => es

/-- Modelled from the spec: the `From`-conversion the Rust source applies
with `.into()` to a `Result<(), ValidationError>`: an `Ok` becomes
`Passed`, an `Err(e)` becomes `Failed` carrying exactly that one error. -/
def ValidationResult.ofResult : Except ValidationError Unit → ValidationResult
  | .ok _ => .Passed
  | .error e => .Failed [e]

/-- Modelled from the spec: push one path segment onto the front of every
error in a list, composing nested error paths hierarchically. -/
def nestErrors (seg : PathSeg) (errs : List ValidationError) : List ValidationError :=
  errs.map (fun e => ⟨seg :: e.path, e.message⟩)

/-- Modelled from the spec: validate every element of a list independently
starting at index `k`, tagging each element's errors with its zero-based
index, aggregated in list order. -/
def elementErrorsFrom (f : α → ValidationResult) (k : Nat) : List α → List ValidationError
  | [] => []
  | x :: xs => nestErrors (PathSeg.index k) (resultErrors (f x)) ++ elementErrorsFrom f (k + 1) xs

/-- Modelled from the spec: per-element errors of a list, indices counted
from zero. -/
def elementErrors (f : α → ValidationResult) (xs : List α) : List ValidationError :=
  elementErrorsFrom f 0 xs

/-- Modelled from the spec: the duplicate test of the uniqueness checker —
index `i` holds a duplicate when the element at `i` is structurally equal
to some element strictly before it. -/
def isDupAt [DecidableEq α] (xs : List α) (i : Nat) : Bool :=
  match xs.get? i with
  | some x => decide (x ∈ xs.take i)
  | none => false

/-- Modelled from the spec: the indices the uniqueness checker flags, in
list order — every occurrence of a value beyond its first. -/
def dupIndices [DecidableEq α] (xs : List α) : List Nat :=
  (List.range xs.length).filter (isDupAt xs)

/-- Modelled from the spec: one error per flagged index, stating the value
is a duplicate, emitted in list-index order. -/
def duplicateErrors [DecidableEq α] (xs : List α) : List ValidationError :=
  (dupIndices xs).map (fun i => ⟨[PathSeg.index i], "duplicate"⟩)

/-- Modelled from the spec: the fluent accumulator, owning the ordered
sequence of already path-tagged errors collected so far. -/
structure ValidationContext where
  accumulated : List ValidationError

/-- Modelled from the spec: `ValidationContext::new()`, an empty accumulator. -/
def ValidationContext.new : ValidationContext := ⟨[]⟩

/-- Modelled from the spec: append a named field's errors, tagged with the
field name, to the accumulator. -/
def ValidationContext.addUnder (ctx : ValidationContext) (name : String)
    (errs : List ValidationError) : ValidationContext :=
  ⟨ctx.accumulated ++ nestErrors (PathSeg.field name) errs⟩

/-- Modelled from the spec: `add_field(name, value, leaf_validator)` —
run a leaf predicate on a scalar value; on failure record its error
tagged with `name`. -/
def ValidationContext.add_field (ctx : ValidationContext) (name : String) (value : α)
    (validator : α → Except ValidationError Unit) : ValidationContext :=
  match validator value with
  | .ok _ => ctx.addUnder name []
  | .error e => ctx.addUnder name [e]

/-- Modelled from the spec: `add_list(name, sequence, per_element_validator)`
— validate every element independently, aggregating all per-element
failures, each tagged with `name` and the element's zero-based index. -/
def ValidationContext.add_list (ctx : ValidationContext) (name : String) (xs : List α)
    (f : α → ValidationResult) : ValidationContext :=
  ctx.addUnder name (elementErrors f xs)

/-- Modelled from the spec: `add_unique_list_option` — absence contributes
nothing; when present, a duplicate-detection pass over the full sequence
flags every index beyond an element's first occurrence, then every
element is still validated for internal validity. -/
def ValidationContext.add_unique_list_option [DecidableEq α] (ctx : ValidationContext)
    (name : String) (opt : Option (List α)) (f : α → ValidationResult) : ValidationContext :=
  match opt with
  | none => ctx
  | some xs => ctx.addUnder name (duplicateErrors xs ++ elementErrors f xs)

/-- Modelled from the spec: `add_struct_option(name, optional, version)` —
if present, recursively validate the sub-structure and fold its errors
under `name`; if absent, contribute nothing.  The recursive call (the
sub-structure's `Validate` capability applied at the threaded version)
is passed here as the function `f`. -/
def ValidationContext.add_struct_option (ctx : ValidationContext) (name : String)
    (opt : Option α) (f : α → ValidationResult) : ValidationContext :=
  match opt with
  | none => ctx
  | some s => ctx.addUnder name (resultErrors (f s))

/-- Modelled from the spec: `into() -> ValidationResult` — finalize the
accumulator; an empty accumulator yields `Passed`, otherwise `Failed`
with the accumulated ordered errors. -/
def ValidationContext.into (ctx : ValidationContext) : ValidationResult :=
  match ctx.accumulated with
  | [] => .Passed
  | e :: es => .Failed (e :: es)

/-- The closed enumeration of supported schema versions (the crate's
`SpecVersion`, three generations as used by `formulation/mod.rs`). -/
inductive SpecVersion where
  | V1_3
  | V1_4
  | V1_5
deriving DecidableEq

/-- Modelled from the spec: the `Display` rendering of a version, as
interpolated into "not defined for version" messages. -/
def SpecVersion.display : SpecVersion → String
  | .V1_3 => "1.3"
  | .V1_4 => "1.4"
  | .V1_5 => "1.5"

/-! ## Embedding of `src/models/hash.rs` -/

/-- `HashAlgorithm`: the fixed named algorithms plus the
`UnknownHashAlgorithm` fallback preserving the raw string. -/
inductive HashAlgorithm where
  | MD5
  | SHA1
  | SHA256
  | SHA384
  | SHA512
  | SHA3_256
  | SHA3_384
  | SHA3_512
  | BLAKE2b_256
  | BLAKE2b_384
  | BLAKE2b_512
  | BLAKE3
  | UnknownHashAlgorithm (un : String)
deriving DecidableEq

/-- `impl ToString for HashAlgorithm`, arm for arm. -/
def HashAlgorithm.toString : HashAlgorithm → String
  | .MD5 => "MD5"
  | .SHA1 => "SHA-1"
  | .SHA256 => "SHA-256"
  | .SHA384 => "SHA-384"
  | .SHA512 => "SHA-512"
  | .SHA3_256 => "SHA3-256"
  | .SHA3_384 => "SHA3-384"
  | .SHA3_512 => "SHA3-512"
  | .BLAKE2b_256 => "BLAKE2b-256"
  | .BLAKE2b_384 => "BLAKE2b-384"
  | .BLAKE2b_512 => "BLAKE2b-512"
  | .BLAKE3 => "BLAKE3"
  | .UnknownHashAlgorithm un => un

/-- `HashAlgorithm::new_unchecked`: exact string match against the fixed
table, any other string becomes `UnknownHashAlgorithm` carrying the
original text (the Rust `match` on string literals, tried in order). -/
def HashAlgorithm.new_unchecked (value : String) : HashAlgorithm :=
  if value = "MD5" then .MD5
  else if value = "SHA-1" then .SHA1
  else if value = "SHA-256" then .SHA256
  else if value = "SHA-384" then .SHA384
  else if value = "SHA-512" then .SHA512
  else if value = "SHA3-256" then .SHA3_256
  else if value = "SHA3-384" then .SHA3_384
  else if value = "SHA3-512" then .SHA3_512
  else if value = "BLAKE2b-256" then .BLAKE2b_256
  else if value = "BLAKE2b-384" then .BLAKE2b_384
  else if value = "BLAKE2b-512" then .BLAKE2b_512
  else if value = "BLAKE3" then .BLAKE3
  else .UnknownHashAlgorithm value

/-- The twelve strings matched by the fixed arms of `new_unchecked`. -/
def knownAlgorithmNames : List String :=
  ["MD5", "SHA-1", "SHA-256", "SHA-384", "SHA-512", "SHA3-256", "SHA3-384",
   "SHA3-512", "BLAKE2b-256", "BLAKE2b-384", "BLAKE2b-512", "BLAKE3"]

/-- `pub struct HashValue(pub String)`. -/
structure HashValue where
  val : String
deriving DecidableEq

/-- `pub fn validate_hash_algorithm`: error exactly when the algorithm is
the `UnknownHashAlgorithm` fallback. -/
def validate_hash_algorithm (algorithm : HashAlgorithm) : Except ValidationError Unit :=
  match algorithm with
  | .UnknownHashAlgorithm _ => .error (ValidationError.new "Unknown HashAlgorithm")
  | _ => .ok ()

/-- The character class `[a-fA-F0-9]` of the hash-value regular expression. -/
def isHexChar (c : Char) : Bool :=
  (('a' ≤ c) && (c ≤ 'f')) || (('A' ≤ c) && (c ≤ 'F')) || (('0' ≤ c) && (c ≤ '9'))

/-- `[a-fA-F0-9]{n}` matching at the start of `l`: at least `n` characters
remain and the first `n` are all in the class. -/
def hexRunAtStart (n : Nat) (l : List Char) : Bool :=
  decide (n ≤ l.length) && (l.take n).all isHexChar

/-- An unanchored alternation branch `([a-fA-F0-9]{n})`: it matches the
string when it matches at some position, i.e. at the start of some
suffix. -/
def existsHexRun (n : Nat) : List Char → Bool
  | [] => hexRunAtStart n []
  | c :: cs => hexRunAtStart n (c :: cs) || existsHexRun n cs

/-- The branch `([a-fA-F0-9]{128})$`: 128 class characters ending exactly
at the end of the string. -/
def hexRunAtEnd (n : Nat) (l : List Char) : Bool :=
  decide (n ≤ l.length) && (l.drop (l.length - n)).all isHexChar

/-- `HASH_VALUE_REGEX.is_match` for the pattern
`^([a-fA-F0-9]{32})|([a-fA-F0-9]{40})|([a-fA-F0-9]{64})|([a-fA-F0-9]{96})|([a-fA-F0-9]{128})$`.
Alternation binds loosest, so the pattern is a five-way alternation in
which only the first branch is anchored at the start (`^`) and only the
last is anchored at the end (`$`); `is_match` succeeds when any branch
matches at any position. -/
def hashValueRegexIsMatch (l : List Char) : Bool :=
  hexRunAtStart 32 l || existsHexRun 40 l || existsHexRun 64 l ||
    existsHexRun 96 l || hexRunAtEnd 128 l

/-- `pub fn validate_hash_value`: error exactly when the regular
expression does not match the raw string. -/
def validate_hash_value (value : HashValue) : Except ValidationError Unit :=
  if !(hashValueRegexIsMatch value.val.data) then
    .error (ValidationError.new "HashValue does not match regular expression")
  else
    .ok ()

/-- `pub struct Hash { alg, content }`. -/
structure Hash where
  alg : HashAlgorithm
  content : HashValue
deriving DecidableEq

/-- `impl Validate for Hash`: the two leaf validators composed in field
declaration order under the tags `alg` and `content` (the version
parameter is unread). -/
def Hash.validate (h : Hash) (_version : SpecVersion) : ValidationResult :=
  ((ValidationContext.new.add_field "alg" h.alg validate_hash_algorithm).add_field
      "content" h.content validate_hash_value).into

/-- `pub struct Hashes(pub Vec<Hash>)`. -/
structure Hashes where
  items : List Hash
deriving DecidableEq

/-- `impl Validate for Hashes`: every element validated under the tag
`inner` with its index, no uniqueness pass. -/
def Hashes.validate (hs : Hashes) (version : SpecVersion) : ValidationResult :=
  (ValidationContext.new.add_list "inner" hs.items (fun h => h.validate version)).into

/-! ## Embedding of `src/models/formulation/mod.rs`

The field types of `Formula` (`BomReference`, `Components`, `Services`,
`Workflow`, `Properties`) live in modules outside the given sources, and
the spec leaves their own field rules out of scope.  Each is modelled as
carrying the ordered error list its own `validate_version` call produces,
so that structural equality is decidable (as the Rust `PartialEq` derive
gives) and the sub-entity's validation outcome can range over arbitrary
flat results while `Formula`'s own composition is studied. -/

/-- Modelled from the spec: `BomReference`, an optional self-reference id
whose contents `Formula::validate_version` never inspects. -/
structure BomReference where
  ref : String
deriving DecidableEq

/-- Modelled from the spec: a `components` list element; out-of-scope
field rules abstracted as the errors its own validation reports. -/
structure Component where
  ownErrors : List ValidationError
deriving DecidableEq

/-- Modelled from the spec: the sub-entity's `Validate` capability —
`Passed` when it reports no errors, `Failed` with them otherwise. -/
def Component.validate_version (c : Component) (_version : SpecVersion) : ValidationResult :=
  match c.ownErrors with
  | [] => .Passed
  | e :: es => .Failed (e :: es)

/-- Modelled from the spec: a `services` list element, abstracted like
`Component`. -/
structure Service where
  ownErrors : List ValidationError
deriving DecidableEq

/-- Modelled from the spec: the service's `Validate` capability. -/
def Service.validate_version (s : Service) (_version : SpecVersion) : ValidationResult :=
  match s.ownErrors with
  | [] => .Passed
  | e :: es => .Failed (e :: es)

/-- Modelled from the spec: a `workflows` list element, abstracted like
`Component`. -/
structure Workflow where
  ownErrors : List ValidationError
deriving DecidableEq

/-- Modelled from the spec: the workflow's `Validate` capability. -/
def Workflow.validate_version (w : Workflow) (_version : SpecVersion) : ValidationResult :=
  match w.ownErrors with
  | [] => .Passed
  | e :: es => .Failed (e :: es)

/-- Modelled from the spec: the `properties` sub-structure, abstracted
like `Component`. -/
structure Properties where
  ownErrors : List ValidationError
deriving DecidableEq

/-- Modelled from the spec: the properties' `Validate` capability. -/
def Properties.validate_version (p : Properties) (_version : SpecVersion) : ValidationResult :=
  match p.ownErrors with
  | [] => .Passed
  | e :: es => .Failed (e :: es)

/-- Modelled from the spec: `Components`, a wrapper around a vector of
components (the Rust source reaches its elements through `.0.iter()`). -/
structure Components where
  items : List Component
deriving DecidableEq

/-- Modelled from the spec: `Services`, a wrapper around a vector of
services. -/
structure Services where
  items : List Service
deriving DecidableEq

/-- `pub(crate) struct Formula` with its five optional fields in
declaration order. -/
structure Formula where
  bom_ref : Option BomReference
  components : Option Components
  services : Option Services
  workflows : Option (List Workflow)
  properties : Option Properties

/-- `impl Validate for Formula`: at versions 1.3 and 1.4 a single
"Formula is not defined for version {version}" error regardless of
contents; at 1.5 the three unique lists and the optional properties
sub-structure, composed in source order. -/
def Formula.validate_version (f : Formula) (version : SpecVersion) : ValidationResult :=
  match version with
  | .V1_3 | .V1_4 =>
      ValidationResult.ofResult
        (.error (ValidationError.new
          ("Formula is not defined for version " ++ version.display)))
  | .V1_5 =>
      ((((ValidationContext.new.add_unique_list_option "components"
            (f.components.map (fun wrapper => wrapper.items))
            (fun component => component.validate_version version)).add_unique_list_option
          "services"
            (f.services.map (fun wrapper => wrapper.items))
            (fun component => component.validate_version version)).add_unique_list_option
          "workflows"
            f.workflows
            (fun component => component.validate_version version)).add_struct_option
          "properties"
            f.properties
            (fun p => p.validate_version version)).into

/-! ## General lemmas about the embedded engine -/

/-- Finalizing a context yields a result carrying exactly the accumulated
errors. -/
theorem resultErrors_into (ctx : ValidationContext) :
    resultErrors ctx.into = ctx.accumulated := by
  obtain ⟨acc⟩ := ctx
  cases acc <;> rfl

/-- Finalizing yields `Passed` exactly when nothing was accumulated. -/
theorem into_passed_iff (ctx : ValidationContext) :
    ctx.into = .Passed ↔ ctx.accumulated = [] := by
  obtain ⟨acc⟩ := ctx
  cases acc <;> simp [ValidationContext.into]

/-- A finalized result is `Passed` exactly when it carries no errors
(`Failed` is never built with an empty list). -/
theorem into_passed_iff_errors (ctx : ValidationContext) :
    ctx.into = .Passed ↔ resultErrors ctx.into = [] := by
  rw [resultErrors_into, into_passed_iff]

/-- Membership in a `take`: exactly the values appearing at an index
strictly below the cut. -/
theorem mem_take_iff {α : Type} (x : α) (l : List α) (i : Nat) :
    x ∈ l.take i ↔ ∃ j, j < i ∧ l.get? j = some x := by
  constructor
  · intro hx
    obtain ⟨n, hn⟩ := List.mem_iff_get?.mp hx
    have hlen : n < (l.take i).length := (List.get?_eq_some.mp hn).1
    have hni : n < i := lt_of_lt_of_le hlen (by simp [List.length_take])
    refine ⟨n, hni, ?_⟩
    rw [← List.get?_take hni]
    exact hn
  · rintro ⟨j, hj, hget⟩
    refine List.mem_iff_get?.mpr ⟨j, ?_⟩
    rw [List.get?_take hj]
    exact hget

/-- The uniqueness checker flags index `i` exactly when the element there
equals the element at some strictly earlier index: the first occurrence
of a value is never flagged, every later one is. -/
theorem mem_dupIndices_iff {α : Type} [DecidableEq α] (xs : List α) (i : Nat) :
    i ∈ dupIndices xs ↔
      ∃ x, xs.get? i = some x ∧ ∃ j, j < i ∧ xs.get? j = some x := by
  unfold dupIndices
  rw [List.mem_filter, List.mem_range]
  unfold isDupAt
  cases hget : xs.get? i with
  | none => simp [hget]
  | some x =>
    have hlen : i < xs.length := (List.get?_eq_some.mp hget).1
    simp only [hget, decide_eq_true_eq, Option.some.injEq]
    constructor
    · rintro ⟨-, hmem⟩
      obtain ⟨j, hj, hjx⟩ := (mem_take_iff x xs i).mp hmem
      exact ⟨x, rfl, j, hj, hjx⟩
    · rintro ⟨y, rfl, j, hj, hjy⟩
      exact ⟨hlen, (mem_take_iff x xs i).mpr ⟨j, hj, hjy⟩⟩

/-- The flagged indices are emitted in strictly increasing list order. -/
theorem dupIndices_pairwise {α : Type} [DecidableEq α] (xs : List α) :
    (dupIndices xs).Pairwise (· < ·) :=
  (List.pairwise_lt_range xs.length).sublist (List.filter_sublist _)

/-- Membership in the per-element error aggregate starting at index `k`:
exactly the errors of some element, tagged with that element's index. -/
theorem mem_elementErrorsFrom {α : Type} (f : α → ValidationResult) (xs : List α)
    (k : Nat) (e : ValidationError) :
    e ∈ elementErrorsFrom f k xs ↔
      ∃ i x, xs.get? i = some x ∧ ∃ e0 ∈ resultErrors (f x),
        e = ⟨PathSeg.index (k + i) :: e0.path, e0.message⟩ := by
  induction xs generalizing k with
  | nil => simp [elementErrorsFrom]
  | cons y ys ih =>
    simp only [elementErrorsFrom, List.mem_append, ih, nestErrors, List.mem_map]
    constructor
    · rintro (⟨e0, he0, rfl⟩ | ⟨i, x, hget, e0, he0, rfl⟩)
      · exact ⟨0, y, rfl, e0, he0, by simp⟩
      · refine ⟨i + 1, x, hget, e0, he0, ?_⟩
        have harith : k + 1 + i = k + (i + 1) := by omega
        rw [harith]
    · rintro ⟨i, x, hget, e0, he0, rfl⟩
      cases i with
      | zero =>
        left
        have hxy : y = x := by simpa using hget
        subst hxy
        exact ⟨e0, he0, by simp⟩
      | succ i =>
        right
        refine ⟨i, x, hget, e0, he0, ?_⟩
        have harith : k + (i + 1) = k + 1 + i := by omega
        rw [harith]

/-- The per-element error aggregate is empty exactly when every element
reports no errors. -/
theorem elementErrorsFrom_eq_nil {α : Type} (f : α → ValidationResult) (xs : List α)
    (k : Nat) :
    elementErrorsFrom f k xs = [] ↔ ∀ x ∈ xs, resultErrors (f x) = [] := by
  induction xs generalizing k with
  | nil => simp [elementErrorsFrom]
  | cons y ys ih =>
    simp [elementErrorsFrom, nestErrors, ih]

/-! ## Claim theorems -/

/-- Claim C1 (code evaluation at the failing input): a raw string of 33
hexadecimal characters — none of the five digest lengths — nevertheless
passes `validate_hash_value`, because in the pattern
`^(32)|(40)|(64)|(96)|(128)$` only the first alternation branch is
anchored at the start and only the last at the end, so the 32-character
branch matches the prefix of the 33-character string. -/
theorem claim_C1_code_eval :
    ((List.replicate 33 '0').length = 33 ∧
      (List.replicate 33 '0').all isHexChar = true ∧
      (33 : Nat) ∉ ([32, 40, 64, 96, 128] : List Nat)) ∧
    validate_hash_value ⟨⟨List.replicate 33 '0'⟩⟩ = .ok () :=
  ⟨by decide, rfl⟩

/-- Claim C2: for every `Formula`, whatever its field contents,
`validate_version` at versions 1.3 and 1.4 fails with exactly one error,
"Formula is not defined for version {version}" with the version
interpolated; no field of the entity is inspected (the equations hold
uniformly in the quantified `Formula`). -/
theorem claim_C2 (f : Formula) :
    f.validate_version .V1_3 =
      .Failed [ValidationError.new
        ("Formula is not defined for version " ++ SpecVersion.display .V1_3)] ∧
    f.validate_version .V1_4 =
      .Failed [ValidationError.new
        ("Formula is not defined for version " ++ SpecVersion.display .V1_4)] :=
  ⟨rfl, rfl⟩

/-- Claim C3: `new_unchecked` is total (it is a Lean function into
`HashAlgorithm`); every string outside the twelve known names round-trips
losslessly through the `UnknownHashAlgorithm` variant, and each known
name maps to its named variant and back to the same canonical name. -/
theorem claim_C3 :
    (∀ s : String, s ∉ knownAlgorithmNames →
      (HashAlgorithm.new_unchecked s).toString = s) ∧
    ((HashAlgorithm.new_unchecked "MD5" = .MD5 ∧ HashAlgorithm.toString .MD5 = "MD5") ∧
     (HashAlgorithm.new_unchecked "SHA-1" = .SHA1 ∧ HashAlgorithm.toString .SHA1 = "SHA-1") ∧
     (HashAlgorithm.new_unchecked "SHA-256" = .SHA256 ∧
       HashAlgorithm.toString .SHA256 = "SHA-256") ∧
     (HashAlgorithm.new_unchecked "SHA-384" = .SHA384 ∧
       HashAlgorithm.toString .SHA384 = "SHA-384") ∧
     (HashAlgorithm.new_unchecked "SHA-512" = .SHA512 ∧
       HashAlgorithm.toString .SHA512 = "SHA-512") ∧
     (HashAlgorithm.new_unchecked "SHA3-256" = .SHA3_256 ∧
       HashAlgorithm.toString .SHA3_256 = "SHA3-256") ∧
     (HashAlgorithm.new_unchecked "SHA3-384" = .SHA3_384 ∧
       HashAlgorithm.toString .SHA3_384 = "SHA3-384") ∧
     (HashAlgorithm.new_unchecked "SHA3-512" = .SHA3_512 ∧
       HashAlgorithm.toString .SHA3_512 = "SHA3-512") ∧
     (HashAlgorithm.new_unchecked "BLAKE2b-256" = .BLAKE2b_256 ∧
       HashAlgorithm.toString .BLAKE2b_256 = "BLAKE2b-256") ∧
     (HashAlgorithm.new_unchecked "BLAKE2b-384" = .BLAKE2b_384 ∧
       HashAlgorithm.toString .BLAKE2b_384 = "BLAKE2b-384") ∧
     (HashAlgorithm.new_unchecked "BLAKE2b-512" = .BLAKE2b_512 ∧
       HashAlgorithm.toString .BLAKE2b_512 = "BLAKE2b-512") ∧
     (HashAlgorithm.new_unchecked "BLAKE3" = .BLAKE3 ∧
       HashAlgorithm.toString .BLAKE3 = "BLAKE3")) := by
  refine ⟨?_, ?_⟩
  · intro s hs
    simp only [knownAlgorithmNames, List.mem_cons, List.not_mem_nil, or_false, not_or] at hs
    obtain ⟨h1, h2, h3, h4, h5, h6, h7, h8, h9, h10, h11, h12⟩ := hs
    simp [HashAlgorithm.new_unchecked, HashAlgorithm.toString,
      h1, h2, h3, h4, h5, h6, h7, h8, h9, h10, h11, h12]
  · exact ⟨⟨rfl, rfl⟩, ⟨rfl, rfl⟩, ⟨rfl, rfl⟩, ⟨rfl, rfl⟩, ⟨rfl, rfl⟩, ⟨rfl, rfl⟩,
      ⟨rfl, rfl⟩, ⟨rfl, rfl⟩, ⟨rfl, rfl⟩, ⟨rfl, rfl⟩, ⟨rfl, rfl⟩, ⟨rfl, rfl⟩⟩

/-- Claim C3 witness: a concrete unrecognized name round-trips through
`new_unchecked` and `toString` unchanged. -/
theorem claim_C3_witness :
    (HashAlgorithm.new_unchecked "whirlpool").toString = "whirlpool" :=
  claim_C3.1 "whirlpool" (by decide)

/-- Claim C4: `validate_hash_algorithm` errors exactly on the
`UnknownHashAlgorithm` fallback (whatever string it carries) with the
message "Unknown HashAlgorithm", and passes exactly on the twelve named
variants. -/
theorem claim_C4 :
    (∀ a : HashAlgorithm,
      validate_hash_algorithm a =
          .error (ValidationError.new "Unknown HashAlgorithm") ↔
        ∃ s, a = .UnknownHashAlgorithm s) ∧
    (∀ a : HashAlgorithm,
      validate_hash_algorithm a = .ok () ↔ ∀ s, a ≠ .UnknownHashAlgorithm s) := by
  constructor
  · intro a
    cases a <;> simp [validate_hash_algorithm]
  · intro a
    cases a <;> simp [validate_hash_algorithm]

/-- Claim C4 witness: the `MD5` variant passes the leaf validator. -/
theorem claim_C4_witness : validate_hash_algorithm .MD5 = .ok () :=
  (claim_C4.2 HashAlgorithm.MD5).mpr (fun _ h => HashAlgorithm.noConfusion h)

/-- Claim C8: validation is deterministic and idempotent — in this pure
embedding, two calls of the validation functions of `Hash`, `Hashes` and
`Formula` on the same entity and version are definitionally equal. -/
theorem claim_C8 (h : Hash) (hs : Hashes) (f : Formula) (v : SpecVersion) :
    Hash.validate h v = Hash.validate h v ∧
    Hashes.validate hs v = Hashes.validate hs v ∧
    Formula.validate_version f v = Formula.validate_version f v :=
  ⟨rfl, rfl, rfl⟩

/-- Claim C9: for every supported version, the `Hashes` list holding the
single MD5 hash `a3bf1f3d584747e2569483783ddee45b` validates to
`Passed`. -/
theorem claim_C9 (v : SpecVersion) :
    Hashes.validate ⟨[⟨.MD5, ⟨"a3bf1f3d584747e2569483783ddee45b"⟩⟩]⟩ v = .Passed :=
  rfl

/-- Claim C10: the `bom_ref` field never influences validation — two
`Formula` values differing only in `bom_ref` validate identically at
every version — and the `Formula` with every optional field absent
validates to `Passed` at version 1.5. -/
theorem claim_C10 :
    (∀ (b b' : Option BomReference) (c : Option Components) (s : Option Services)
        (w : Option (List Workflow)) (p : Option Properties) (v : SpecVersion),
      Formula.validate_version ⟨b, c, s, w, p⟩ v =
        Formula.validate_version ⟨b', c, s, w, p⟩ v) ∧
    Formula.validate_version ⟨none, none, none, none, none⟩ .V1_5 = .Passed := by
  constructor
  · intro b b' c s w p v
    cases v <;> rfl
  · rfl

/-- Claim C5: validation never short-circuits — a `Hash` whose algorithm
is the Unknown fallback and whose content fails the hash-value rule
reports both errors in field-declaration order, tagged `alg` and
`content`; in particular the `Hashes` list of the one hash
`{alg: Unknown("unknown algorithm"), content: "not a hash"}` yields
exactly those two errors at index 0. -/
theorem claim_C5 (v : SpecVersion) :
    (∀ (s : String) (hv : HashValue),
      validate_hash_value hv =
          .error (ValidationError.new "HashValue does not match regular expression") →
      Hash.validate ⟨.UnknownHashAlgorithm s, hv⟩ v =
        .Failed [⟨[.field "alg"], "Unknown HashAlgorithm"⟩,
                 ⟨[.field "content"], "HashValue does not match regular expression"⟩]) ∧
    Hashes.validate ⟨[⟨.UnknownHashAlgorithm "unknown algorithm", ⟨"not a hash"⟩⟩]⟩ v =
      .Failed [⟨[.field "inner", .index 0, .field "alg"], "Unknown HashAlgorithm"⟩,
               ⟨[.field "inner", .index 0, .field "content"],
                 "HashValue does not match regular expression"⟩] := by
  constructor
  · intro s hv hcontent
    simp [Hash.validate, ValidationContext.add_field, ValidationContext.addUnder,
      ValidationContext.new, ValidationContext.into, validate_hash_algorithm,
      hcontent, nestErrors, ValidationError.new]
  · rfl

/-- Claim C5 witness: the concrete scenario, a single `Hash` whose two
fields both fail. -/
theorem claim_C5_witness :
    Hash.validate ⟨.UnknownHashAlgorithm "unknown algorithm", ⟨"not a hash"⟩⟩ .V1_3 =
      .Failed [⟨[.field "alg"], "Unknown HashAlgorithm"⟩,
               ⟨[.field "content"], "HashValue does not match regular expression"⟩] :=
  (claim_C5 .V1_3).1 "unknown algorithm" ⟨"not a hash"⟩ (by rfl)

/-- Claim C6: `Hashes` validation passes exactly when every element
passes, and its error list holds exactly the failing elements' errors,
each tagged with the element's zero-based index under `inner` — in
particular no duplicate-uniqueness error is ever emitted for this
list. -/
theorem claim_C6 (hs : Hashes) (v : SpecVersion) :
    (Hashes.validate hs v = .Passed ↔ ∀ h ∈ hs.items, h.validate v = .Passed) ∧
    (∀ e : ValidationError,
      e ∈ resultErrors (Hashes.validate hs v) ↔
        ∃ i h, hs.items.get? i = some h ∧ ∃ e0 ∈ resultErrors (h.validate v),
          e = ⟨PathSeg.field "inner" :: PathSeg.index i :: e0.path, e0.message⟩) := by
  have herr : resultErrors (Hashes.validate hs v) =
      nestErrors (.field "inner") (elementErrorsFrom (fun h => h.validate v) 0 hs.items) := by
    rw [show Hashes.validate hs v =
        (ValidationContext.new.add_list "inner" hs.items (fun h => h.validate v)).into
      from rfl]
    rw [resultErrors_into]
    simp [ValidationContext.add_list, ValidationContext.addUnder, ValidationContext.new,
      elementErrors]
  constructor
  · have hpass : Hashes.validate hs v = .Passed ↔
        resultErrors (Hashes.validate hs v) = [] := into_passed_iff_errors _
    rw [hpass, herr]
    simp only [nestErrors, List.map_eq_nil_iff]
    rw [elementErrorsFrom_eq_nil]
    constructor
    · intro H h hh
      exact (into_passed_iff_errors _).mpr (H h hh)
    · intro H h hh
      exact (into_passed_iff_errors _).mp (H h hh)
  · intro e
    rw [herr]
    simp only [nestErrors, List.mem_map]
    constructor
    · rintro ⟨e1, he1, rfl⟩
      obtain ⟨i, x, hget, e0, he0, rfl⟩ :=
        (mem_elementErrorsFrom (fun h => h.validate v) hs.items 0 e1).mp he1
      exact ⟨i, x, hget, e0, he0, by simp⟩
    · rintro ⟨i, h, hget, e0, he0, rfl⟩
      have hmem : (⟨PathSeg.index i :: e0.path, e0.message⟩ : ValidationError) ∈
          elementErrorsFrom (fun h => h.validate v) 0 hs.items :=
        (mem_elementErrorsFrom (fun h => h.validate v) hs.items 0 _).mpr
          ⟨i, h, hget, e0, he0, by simp⟩
      exact ⟨⟨PathSeg.index i :: e0.path, e0.message⟩, hmem, rfl⟩

/-- Claim C7: for the unique-checked lists of a `Formula` at version 1.5
(components, services, workflows), the errors decompose into the
duplicate pass followed by per-element validation for each list in
source order; an index is flagged as duplicate exactly when a
structurally equal element occurs strictly earlier (so a first
occurrence is never flagged and every later one is), flagged indices are
emitted in increasing list order, and a list with equal elements at
indices 0 and 2 is flagged at index 2 and not at index 0. -/
theorem claim_C7 :
    (∀ (br : Option BomReference) (cs : List Component) (ss : List Service)
        (ws : List Workflow),
      resultErrors
          (Formula.validate_version ⟨br, some ⟨cs⟩, some ⟨ss⟩, some ws, none⟩ .V1_5) =
        nestErrors (.field "components")
            (duplicateErrors cs ++ elementErrors (fun c => c.validate_version .V1_5) cs) ++
          (nestErrors (.field "services")
            (duplicateErrors ss ++ elementErrors (fun s => s.validate_version .V1_5) ss) ++
            nestErrors (.field "workflows")
              (duplicateErrors ws ++
                elementErrors (fun w => w.validate_version .V1_5) ws))) ∧
    (∀ (xs : List Component) (i : Nat),
      i ∈ dupIndices xs ↔
        ∃ x, xs.get? i = some x ∧ ∃ j, j < i ∧ xs.get? j = some x) ∧
    (∀ xs : List Component, (dupIndices xs).Pairwise (· < ·)) ∧
    (∀ x y : Component, 0 ∉ dupIndices [x, y, x] ∧ 2 ∈ dupIndices [x, y, x]) := by
  refine ⟨?_, fun xs i => mem_dupIndices_iff xs i, fun xs => dupIndices_pairwise xs, ?_⟩
  · intro br cs ss ws
    simp [Formula.validate_version, ValidationContext.add_unique_list_option,
      ValidationContext.add_struct_option, ValidationContext.addUnder,
      ValidationContext.new, resultErrors_into, List.append_assoc]
  · intro x y
    constructor
    · intro h0
      obtain ⟨z, hz, j, hj, -⟩ := (mem_dupIndices_iff [x, y, x] 0).mp h0
      omega
    · exact (mem_dupIndices_iff [x, y, x] 2).mpr ⟨x, rfl, 0, by omega, rfl⟩

end CycloneDX
